import Mathlib

/-!
Verification of the timing-judgment and scoring core of the ASCII-Game
rhythm game.  The gameplay pipeline of `idGameManager::UpdateGameData`,
the per-note judgment state machine, the bottom-note selection loop, the
frame scheduler of `idGameManager::PlayGameStep`, the miss registration of
`idGameManager::RegisterMissOnLane`, and the level-select navigation of
`idGameManager::SelectLevelUpdate` are embedded as pure functions over
exact rational time values.  The `idLevel` container operations
(activation, eviction, played batch) and the `idScoreManager` counters,
whose class sources are not part of the repository snapshot, are modelled
from the specification.
-/

namespace AsciiGame

/-- Note judgment states, from MusicNote.h usage in GameManager.cpp. -/
inductive state_t
  | ACTIVE
  | PRESSED
  | MISSED
  deriving DecidableEq

/-- A music note.  Fields `startSeconds`, `endSeconds`, `state` are from the
source; `noteId` is a ghost identifier added so that the specification can
speak about one note across frames and containers. -/
structure idMusicNote where
  startSeconds : ℚ
  endSeconds : ℚ
  state : state_t
  noteId : ℕ
  deriving DecidableEq

/-- Gameplay tuning constants.  Their numeric values live in the (absent)
SettingsConstants.h, so they are kept symbolic. -/
structure Params where
  pressEarlyTolerance : ℚ
  pressLateTolerance : ℚ
  releaseEarlyTolerance : ℚ
  maxMissTimeDistance : ℚ
  bigComboLossThreshold : ℕ
  leadTime : ℚ
  deriving DecidableEq

/-- Edge-triggered input state of one lane key for the current frame. -/
structure Inp where
  wasPressed : Bool
  wasReleased : Bool
  deriving DecidableEq

/-- Modelled from the spec: the `idScoreManager` counters of section 4.4
(ScoreTracker); the class source is absent from the snapshot. -/
structure ScoreState where
  score : ℚ
  comboCount : ℕ
  maxComboCount : ℕ
  missedNotesCount : ℕ
  playedNotesCount : ℕ
  isFullCombo : Bool
  deriving DecidableEq

/-- Modelled from the spec: `Reset()` zeroes all counters for a new session. -/
def scoreReset : ScoreState :=
  ⟨0, 0, 0, 0, 0, true⟩

/-- Modelled from the spec: `RegisterHit(value)` adds `value` to the score,
increments the combo, updates the maximum combo and the played count. -/
def registerHit (value : ℚ) (s : ScoreState) : ScoreState :=
  { s with
    score := s.score + value
    comboCount := s.comboCount + 1
    maxComboCount := max s.maxComboCount (s.comboCount + 1)
    playedNotesCount := s.playedNotesCount + 1 }

/-- Modelled from the spec: `RegisterMiss()` increments the missed and played
counts, resets the combo and clears the full-combo flag. -/
def registerMiss (s : ScoreState) : ScoreState :=
  { s with
    comboCount := 0
    missedNotesCount := s.missedNotesCount + 1
    playedNotesCount := s.playedNotesCount + 1
    isFullCombo := false }

/-- Score-side state threaded through one frame of `UpdateGameData`: the
score manager, the `latestLaneMistakes` array and the `isBigComboLoss`
accumulator. -/
structure ScoreCtx where
  sc : ScoreState
  latestLaneMistakes : List ℚ
  isBigComboLoss : Bool
  deriving DecidableEq

/-- The miss registration helper `idGameManager::RegisterMissOnLane`
(GameManager.cpp lines 371-378): reads the combo count before the miss,
registers the miss, records the mistake time on the lane, and returns
whether the combo before the miss reached the big-combo-loss threshold. -/
def registerMissOnLane (P : Params) (t : ℚ) (lane : ℕ) (c : ScoreCtx) :
    ScoreCtx × Bool :=
  let comboCountBeforeNote := c.sc.comboCount
  (⟨registerMiss c.sc, c.latestLaneMistakes.set lane t, c.isBigComboLoss⟩,
    decide (comboCountBeforeNote ≥ P.bigComboLossThreshold))

/-- One judgment of the selected bottom note (GameManager.cpp lines
325-346).  Returns the updated note and whether a miss was registered at
this state transition. -/
def judgeNote (P : Params) (t : ℚ) (inp : Inp) (n : idMusicNote) :
    idMusicNote × Bool :=
  if n.state = state_t.MISSED then (n, false)
  else if n.state = state_t.ACTIVE then
    if t > n.startSeconds + P.pressLateTolerance then
      ({ n with state := state_t.MISSED }, true)
    else if inp.wasPressed then
      if t ≥ n.startSeconds - P.pressEarlyTolerance then
        ({ n with state := state_t.PRESSED }, false)
      else if t + P.maxMissTimeDistance ≥ n.startSeconds - P.pressEarlyTolerance then
        ({ n with state := state_t.MISSED }, true)
      else (n, false)
    else (n, false)
  else
    if inp.wasReleased ∧ t ≤ n.endSeconds - P.releaseEarlyTolerance then
      ({ n with state := state_t.MISSED }, true)
    else (n, false)

/-- The bottom-note search loop body (GameManager.cpp lines 317-322): the
current candidate is skipped while further notes exist and the candidate is
judged and past its resolvable window. -/
def bottomNoteIdxGo (P : Params) (t : ℚ) : List idMusicNote → ℕ → ℕ
  | [], i => i
  | n :: rest, i =>
    if rest ≠ [] ∧ n.state ≠ state_t.ACTIVE ∧
        t > n.endSeconds - P.releaseEarlyTolerance then
      bottomNoteIdxGo P t rest (i + 1)
    else i

/-- Index of the bottom note selected for judgment in a lane's active
queue (GameManager.cpp lines 314-322). -/
def bottomNoteIdx (P : Params) (t : ℚ) (notes : List idMusicNote) : ℕ :=
  bottomNoteIdxGo P t notes 0

/-- A note is resolvable at time `t` when it is still `ACTIVE` or has not
yet passed its resolvable window; this is the selection predicate claimed
by the specification. -/
def resolvableB (P : Params) (t : ℚ) (n : idMusicNote) : Bool :=
  decide (n.state = state_t.ACTIVE) || decide (t ≤ n.endSeconds - P.releaseEarlyTolerance)

/-- Rank of a judgment state along the monotone paths
ACTIVE to PRESSED to MISSED. -/
def stateRank : state_t → ℕ
  | state_t.ACTIVE => 0
  | state_t.PRESSED => 1
  | state_t.MISSED => 2

/-- States a single note passes through under a sequence of per-frame
judgment contexts, starting with its current state. -/
def judgeTrace (P : Params) : idMusicNote → List (ℚ × Inp) → List state_t
  | n, [] => [n.state]
  | n, f :: fs => n.state :: judgeTrace P (judgeNote P f.1 f.2 n).1 fs

/-- Single judgment never decreases the state rank. -/
theorem judgeNote_rank_mono (P : Params) (t : ℚ) (inp : Inp) (n : idMusicNote) :
    stateRank n.state ≤ stateRank (judgeNote P t inp n).1.state := by
  unfold judgeNote
  split_ifs <;> simp_all [stateRank] <;> cases n.state <;> simp_all [stateRank]

/-- C9: `RegisterMissOnLane` returns true exactly when the combo count read
before the miss was applied reaches the big-combo-loss threshold; the
post-miss combo is always zero, so the returned signal is based on the
pre-miss combo. -/
theorem register_miss_big_combo (P : Params) (t : ℚ) (lane : ℕ) (c : ScoreCtx) :
    ((registerMissOnLane P t lane c).2 = true ↔
      P.bigComboLossThreshold ≤ c.sc.comboCount) ∧
    (registerMissOnLane P t lane c).1.sc.comboCount = 0 := by
  constructor
  · simp [registerMissOnLane, ge_iff_le]
  · simp [registerMissOnLane, registerMiss]

/-- C3: a selected bottom note in state ACTIVE times out to MISSED, with a
miss registered in the same frame, whenever the frame time strictly exceeds
`startSeconds + pressLateTolerance`, regardless of input; and with no press
edge the note becomes MISSED exactly when that strict comparison holds. -/
theorem active_timeout_miss (P : Params) (t : ℚ) (inp : Inp) (n : idMusicNote)
    (h : n.state = state_t.ACTIVE) :
    (t > n.startSeconds + P.pressLateTolerance →
      (judgeNote P t inp n).1.state = state_t.MISSED ∧
      (judgeNote P t inp n).2 = true) ∧
    (inp.wasPressed = false →
      ((judgeNote P t inp n).1.state = state_t.MISSED ↔
        t > n.startSeconds + P.pressLateTolerance)) := by
  unfold judgeNote
  split_ifs with h1 h2 h3 <;> simp_all

/-- C4: a selected bottom ACTIVE note that has not timed out reacts to a
press edge as follows: inside the early tolerance it becomes PRESSED with
no miss registered; too early but within the maximum miss distance it
becomes MISSED with a miss registered; further away the press leaves the
note untouched. -/
theorem active_press_judgment (P : Params) (t : ℚ) (inp : Inp) (n : idMusicNote)
    (h : n.state = state_t.ACTIVE)
    (hlate : ¬ t > n.startSeconds + P.pressLateTolerance)
    (hp : inp.wasPressed = true) :
    (t ≥ n.startSeconds - P.pressEarlyTolerance →
      (judgeNote P t inp n).1.state = state_t.PRESSED ∧
      (judgeNote P t inp n).2 = false) ∧
    (t < n.startSeconds - P.pressEarlyTolerance →
      t + P.maxMissTimeDistance ≥ n.startSeconds - P.pressEarlyTolerance →
      (judgeNote P t inp n).1.state = state_t.MISSED ∧
      (judgeNote P t inp n).2 = true) ∧
    (t < n.startSeconds - P.pressEarlyTolerance →
      t + P.maxMissTimeDistance < n.startSeconds - P.pressEarlyTolerance →
      judgeNote P t inp n = (n, false)) := by
  unfold judgeNote
  split_ifs with h1 h2 h3 h4 <;> simp_all <;> intro h5 h6 <;> linarith

/-- C5: a selected bottom PRESSED note transitions to MISSED, with a miss
registered, exactly when a release edge occurs while
`t ≤ endSeconds - releaseEarlyTolerance`; otherwise (in particular for a
release edge strictly after that threshold) the note is left unchanged, so
it stays PRESSED. -/
theorem pressed_release_judgment (P : Params) (t : ℚ) (inp : Inp) (n : idMusicNote)
    (h : n.state = state_t.PRESSED) :
    (((judgeNote P t inp n).1.state = state_t.MISSED ∧
        (judgeNote P t inp n).2 = true) ↔
      (inp.wasReleased = true ∧ t ≤ n.endSeconds - P.releaseEarlyTolerance)) ∧
    (¬ (inp.wasReleased = true ∧ t ≤ n.endSeconds - P.releaseEarlyTolerance) →
      judgeNote P t inp n = (n, false)) := by
  unfold judgeNote
  split_ifs with h1 h2 h3 <;> simp_all

/-- C8: across any sequence of judgment frames the states a note passes
through are rank-monotone along ACTIVE to PRESSED to MISSED (so the
de-duplicated state sequence is a prefix of ACTIVE-PRESSED-MISSED or of
ACTIVE-MISSED); no judgment step moves a note out of MISSED, and no step
moves a PRESSED note back to ACTIVE. -/
theorem state_monotonic (P : Params) (n : idMusicNote) (fs : List (ℚ × Inp)) :
    List.Chain' (fun a b => stateRank a ≤ stateRank b) (judgeTrace P n fs) ∧
    (∀ (t : ℚ) (inp : Inp) (m : idMusicNote), m.state = state_t.MISSED →
      judgeNote P t inp m = (m, false)) ∧
    (∀ (t : ℚ) (inp : Inp) (m : idMusicNote), m.state = state_t.PRESSED →
      (judgeNote P t inp m).1.state ≠ state_t.ACTIVE) := by
  refine ⟨?_, ?_, ?_⟩
  · induction fs generalizing n with
    | nil => simp [judgeTrace]
    | cons f fs ih =>
      have hd := ih (judgeNote P f.1 f.2 n).1
      have hstep := judgeNote_rank_mono P f.1 f.2 n
      cases fs with
      | nil =>
        simp only [judgeTrace, List.chain'_cons, List.chain'_singleton, and_true]
        exact hstep
      | cons g gs =>
        simp only [judgeTrace] at hd ⊢
        exact List.Chain'.cons hstep hd
  · intro t inp m hm
    simp [judgeNote, hm]
  · intro t inp m hm
    unfold judgeNote
    split_ifs <;> simp_all

/-- Witness for C3 at a concrete input: the Scenario B note with
start 1, late tolerance 1/10, at time 111/100 and no input. -/
theorem active_timeout_miss_witness :
    (⟨1, 3/2, state_t.ACTIVE, 0⟩ : idMusicNote).state = state_t.ACTIVE ∧
    ((judgeNote ⟨1/20, 1/10, 1/10, 1/2, 5, 2⟩ (111/100) ⟨false, false⟩
        ⟨1, 3/2, state_t.ACTIVE, 0⟩).1.state = state_t.MISSED ∧
      (judgeNote ⟨1/20, 1/10, 1/10, 1/2, 5, 2⟩ (111/100) ⟨false, false⟩
        ⟨1, 3/2, state_t.ACTIVE, 0⟩).2 = true) :=
  ⟨rfl,
    (active_timeout_miss ⟨1/20, 1/10, 1/10, 1/2, 5, 2⟩ (111/100) ⟨false, false⟩
      ⟨1, 3/2, state_t.ACTIVE, 0⟩ rfl).1 (by norm_num)⟩

/-- Witness for C4 at a concrete input: Scenario A press at time 51/50
inside the early tolerance yields PRESSED with no miss. -/
theorem active_press_judgment_witness :
    (⟨1, 3/2, state_t.ACTIVE, 0⟩ : idMusicNote).state = state_t.ACTIVE ∧
    ((judgeNote ⟨1/20, 1/10, 1/10, 1/2, 5, 2⟩ (51/50) ⟨true, false⟩
        ⟨1, 3/2, state_t.ACTIVE, 0⟩).1.state = state_t.PRESSED ∧
      (judgeNote ⟨1/20, 1/10, 1/10, 1/2, 5, 2⟩ (51/50) ⟨true, false⟩
        ⟨1, 3/2, state_t.ACTIVE, 0⟩).2 = false) :=
  ⟨rfl,
    (active_press_judgment ⟨1/20, 1/10, 1/10, 1/2, 5, 2⟩ (51/50) ⟨true, false⟩
      ⟨1, 3/2, state_t.ACTIVE, 0⟩ rfl (by norm_num) rfl).1 (by norm_num)⟩

/-- Witness for C5 at a concrete input: Scenario C release at 59/20 with
threshold 29/10 leaves the held note PRESSED. -/
theorem pressed_release_judgment_witness :
    (⟨2, 3, state_t.PRESSED, 0⟩ : idMusicNote).state = state_t.PRESSED ∧
    judgeNote ⟨1/20, 1/10, 1/10, 1/2, 5, 2⟩ (59/20) ⟨false, true⟩
      ⟨2, 3, state_t.PRESSED, 0⟩ = (⟨2, 3, state_t.PRESSED, 0⟩, false) :=
  ⟨rfl,
    (pressed_release_judgment ⟨1/20, 1/10, 1/10, 1/2, 5, 2⟩ (59/20) ⟨false, true⟩
      ⟨2, 3, state_t.PRESSED, 0⟩ rfl).2 (by norm_num)⟩

/-- Witness for C8 at a concrete input: a MISSED note is left unchanged by
judgment. -/
theorem state_monotonic_witness :
    (⟨1, 3/2, state_t.MISSED, 0⟩ : idMusicNote).state = state_t.MISSED ∧
    judgeNote ⟨1/20, 1/10, 1/10, 1/2, 5, 2⟩ 0 ⟨true, true⟩
      ⟨1, 3/2, state_t.MISSED, 0⟩ = (⟨1, 3/2, state_t.MISSED, 0⟩, false) :=
  ⟨rfl,
    (state_monotonic ⟨1/20, 1/10, 1/10, 1/2, 5, 2⟩ ⟨1, 3/2, state_t.MISSED, 0⟩
      []).2.1 0 ⟨true, true⟩ ⟨1, 3/2, state_t.MISSED, 0⟩ rfl⟩

/-- The bottom-note search returns the index of the first resolvable note
when one exists (auxiliary, parametrised by the accumulator). -/
theorem bottomNoteIdxGo_eq_findIdx (P : Params) (t : ℚ) :
    ∀ (notes : List idMusicNote) (i : ℕ),
      (∃ n ∈ notes, resolvableB P t n = true) →
      bottomNoteIdxGo P t notes i = notes.findIdx (resolvableB P t) + i := by
  intro notes
  induction notes with
  | nil => intro i h; simp at h
  | cons n rest ih =>
    intro i h
    by_cases hn : resolvableB P t n = true
    · have hcond : ¬ (rest ≠ [] ∧ n.state ≠ state_t.ACTIVE ∧
          t > n.endSeconds - P.releaseEarlyTolerance) := by
        simp only [resolvableB, Bool.or_eq_true, decide_eq_true_eq] at hn
        rcases hn with hn | hn
        · intro hc; exact hc.2.1 hn
        · intro hc; exact absurd hn (not_le.mpr hc.2.2)
      simp [bottomNoteIdxGo, hcond, List.findIdx_cons, hn]
    · have hrest : ∃ m ∈ rest, resolvableB P t m = true := by
        rcases h with ⟨m, hm, hmr⟩
        rcases List.mem_cons.mp hm with h1 | h1
        · exact absurd (h1 ▸ hmr) hn
        · exact ⟨m, h1, hmr⟩
      have hne : rest ≠ [] := by
        rcases hrest with ⟨m, hm, _⟩
        exact List.ne_nil_of_mem hm
      have hcond : rest ≠ [] ∧ n.state ≠ state_t.ACTIVE ∧
          t > n.endSeconds - P.releaseEarlyTolerance := by
        refine ⟨hne, ?_, ?_⟩
        · intro hA
          exact hn (by simp [resolvableB, hA])
        · by_contra hle
          exact hn (by simp [resolvableB, not_lt.mp hle])
      rw [bottomNoteIdxGo, if_pos hcond, ih (i + 1) hrest]
      simp [List.findIdx_cons, Bool.eq_false_iff.mpr hn]
      omega

/-- When no note of a non-empty queue is resolvable, the search falls
through to the last note of the queue (auxiliary). -/
theorem bottomNoteIdxGo_last (P : Params) (t : ℚ) :
    ∀ (notes : List idMusicNote) (i : ℕ), notes ≠ [] →
      (∀ n ∈ notes, resolvableB P t n = false) →
      bottomNoteIdxGo P t notes i = i + notes.length - 1 := by
  intro notes
  induction notes with
  | nil => intro i h; exact absurd rfl h
  | cons n rest ih =>
    intro i _ hall
    have hn : resolvableB P t n = false := hall n (List.mem_cons_self n rest)
    have hns : n.state ≠ state_t.ACTIVE ∧ t > n.endSeconds - P.releaseEarlyTolerance := by
      simp only [resolvableB, Bool.or_eq_false_iff, decide_eq_false_iff_not] at hn
      exact ⟨hn.1, not_le.mp hn.2⟩
    cases rest with
    | nil =>
      simp [bottomNoteIdxGo]
    | cons m rest2 =>
      have hcond : (m :: rest2) ≠ ([] : List idMusicNote) ∧
          n.state ≠ state_t.ACTIVE ∧ t > n.endSeconds - P.releaseEarlyTolerance :=
        ⟨by simp, hns.1, hns.2⟩
      rw [bottomNoteIdxGo, if_pos hcond]
      rw [ih (i + 1) (by simp) (fun x hx => hall x (List.mem_cons_of_mem n hx))]
      simp only [List.length_cons]
      omega

/-- C2 counterexample: a lane whose single active note is judged and past
its resolvable window still selects that note for judgment, so the
selected note is not "the first note that is ACTIVE or still inside its
window" (no such note exists, yet one is selected). -/
theorem bottom_note_selection_cex :
    bottomNoteIdx ⟨0, 0, 0, 0, 0, 0⟩ 2 [⟨0, 1, state_t.MISSED, 7⟩] = 0 ∧
    resolvableB ⟨0, 0, 0, 0, 0, 0⟩ 2 ⟨0, 1, state_t.MISSED, 7⟩ = false := by
  constructor
  · rfl
  · norm_num [resolvableB]
    intro h
    exact absurd h (by decide)

/-- C2 amended: when some note of the queue is resolvable (ACTIVE, or
judged with `t ≤ endSeconds - releaseEarlyTolerance`), the bottom-note
search selects the first such note; when the queue is non-empty and no
note is resolvable it selects the last note; and a non-resolvable note is
left completely unchanged by judgment, so a judged note past its window is
never re-judged. -/
theorem bottom_note_selection_amended (P : Params) (t : ℚ)
    (notes : List idMusicNote) (inp : Inp) :
    ((∃ n ∈ notes, resolvableB P t n = true) →
      bottomNoteIdx P t notes = notes.findIdx (resolvableB P t)) ∧
    (notes ≠ [] → (∀ n ∈ notes, resolvableB P t n = false) →
      bottomNoteIdx P t notes = notes.length - 1) ∧
    (∀ n : idMusicNote, resolvableB P t n = false →
      judgeNote P t inp n = (n, false)) := by
  refine ⟨?_, ?_, ?_⟩
  · intro h
    have := bottomNoteIdxGo_eq_findIdx P t notes 0 h
    simpa [bottomNoteIdx] using this
  · intro hne hall
    have := bottomNoteIdxGo_last P t notes 0 hne hall
    simpa [bottomNoteIdx] using this
  · intro n hn
    simp only [resolvableB, Bool.or_eq_false_iff, decide_eq_false_iff_not] at hn
    unfold judgeNote
    split_ifs with h1 h2 h3 <;> simp_all

/-- Witness for the amended C2 selection rule at a concrete input: a queue
holding one ACTIVE note selects index 0, the first resolvable note. -/
theorem bottom_note_selection_amended_witness :
    (∃ n ∈ [(⟨1, 2, state_t.ACTIVE, 3⟩ : idMusicNote)],
      resolvableB ⟨0, 0, 0, 0, 0, 0⟩ 0 n = true) ∧
    bottomNoteIdx ⟨0, 0, 0, 0, 0, 0⟩ 0 [⟨1, 2, state_t.ACTIVE, 3⟩] =
      [(⟨1, 2, state_t.ACTIVE, 3⟩ : idMusicNote)].findIdx
        (resolvableB ⟨0, 0, 0, 0, 0, 0⟩ 0) :=
  ⟨⟨⟨1, 2, state_t.ACTIVE, 3⟩, List.mem_singleton.mpr rfl, by simp [resolvableB]⟩,
    (bottom_note_selection_amended ⟨0, 0, 0, 0, 0, 0⟩ 0
      [⟨1, 2, state_t.ACTIVE, 3⟩] ⟨false, false⟩).1
      ⟨⟨1, 2, state_t.ACTIVE, 3⟩, List.mem_singleton.mpr rfl, by simp [resolvableB]⟩⟩

/-- The frame scheduler loop of `idGameManager::PlayGameStep` (lines
124-147): given the successive monotonic-clock readings of the loop
iterations, an update is invoked at reading `c` exactly when
`c > previousUpdateTime + delayBetweenFrames`; the result is the list of
invocation times. -/
def schedInvocations (delay : ℚ) : ℚ → List ℚ → List ℚ
  | _, [] => []
  | prev, c :: cs =>
    if c > prev + delay then c :: schedInvocations delay c cs
    else schedInvocations delay prev cs

/-- C7 counterexample: with frame delay 1/60 a clock reading whose elapsed
time since the previous invocation equals exactly 1/60 (so it reaches the
claimed threshold) triggers no update, because the source compares with
strict `>`. -/
theorem frame_pacing_cex :
    ((1 : ℚ)/60 - 0 ≥ 1/60) ∧ schedInvocations (1/60) 0 [1/60] = [] := by
  constructor
  · norm_num
  · simp [schedInvocations]

/-- C7 amended: the update is re-invoked exactly when the elapsed time
since the previous invocation strictly exceeds `1/frameRate`; consequently
consecutive invocation times always differ by strictly more than the frame
delay (so two updates are never closer than `1/frameRate`), and a reading
that does not strictly exceed the threshold is skipped. -/
theorem frame_pacing_amended (delay prev : ℚ) (cs : List ℚ) :
    List.Chain (fun a b => a + delay < b) prev (schedInvocations delay prev cs) ∧
    (∀ (c : ℚ) (cs2 : List ℚ), prev + delay < c →
      schedInvocations delay prev (c :: cs2) = c :: schedInvocations delay c cs2) ∧
    (∀ (c : ℚ) (cs2 : List ℚ), ¬ prev + delay < c →
      schedInvocations delay prev (c :: cs2) = schedInvocations delay prev cs2) := by
  refine ⟨?_, ?_, ?_⟩
  · induction cs generalizing prev with
    | nil => simp [schedInvocations]
    | cons c cs ih =>
      by_cases h : c > prev + delay
      · simp only [schedInvocations, if_pos h]
        exact List.Chain.cons h (ih c)
      · simp only [schedInvocations, if_neg h]
        exact ih prev
  · intro c cs2 h
    simp [schedInvocations, h]
  · intro c cs2 h
    simp [schedInvocations, h]

/-- Witness for the amended C7 pacing rule at a concrete input: a reading
strictly past the threshold fires exactly one update. -/
theorem frame_pacing_amended_witness :
    ((0 : ℚ) + 1/60 < 1/30) ∧
    schedInvocations (1/60) 0 [1/30] = 1/30 :: schedInvocations (1/60) (1/30) [] :=
  ⟨by norm_num,
    (frame_pacing_amended (1/60) 0 [1/30]).2.1 (1/30) [] (by norm_num)⟩

/-- Whitespace test used by the formatted extraction model of
`LoadLevelsData`. -/
def isWsChar (c : Char) : Bool :=
  c = ' ' || c = '\n' || c = '\t' || c = '\r'

/-- Drop leading whitespace, as `operator>>` and `std::ws` do. -/
def dropWsChars (cs : List Char) : List Char :=
  cs.dropWhile isWsChar

/-- Formatted token extraction `file >> levelFileName`: skip whitespace,
then take a maximal non-whitespace run; fails when no token remains. -/
def readToken (cs : List Char) : Option (String × List Char) :=
  match dropWsChars cs with
  | [] => none
  | c :: rest =>
    some (⟨(c :: rest).takeWhile (fun ch => !isWsChar ch)⟩,
      (c :: rest).dropWhile (fun ch => !isWsChar ch))

/-- Line extraction `std::getline`: take up to the next newline and
consume the newline. -/
def readLine (cs : List Char) : String × List Char :=
  (⟨cs.takeWhile (fun ch => ch ≠ '\n')⟩,
    (cs.dropWhile (fun ch => ch ≠ '\n')).drop 1)

/-- The level-list reading loop of `idGameManager::LoadLevelsData`
(GameManager.cpp lines 48-61), over the file contents as characters: read
a file-name token (failure here is treated as end of file and succeeds),
skip whitespace, then read the display name line (failure here, i.e. an
exhausted stream, makes the file invalid).  Fuel bounds the recursion. -/
def loadLevelsLoop : ℕ → List Char → List (String × String) →
    Option (List (String × String))
  | 0, _, _ => none
  | fuel + 1, cs, acc =>
    match readToken cs with
    | none => some acc
    | some (tok, cs1) =>
      let cs2 := dropWsChars cs1
      if cs2.isEmpty then none
      else
        let r := readLine cs2
        loadLevelsLoop fuel r.2 (acc ++ [(tok, r.1)])

/-- The level list load of `idGameManager::LoadLevelsData` applied to the
contents of the level-list file. -/
def loadLevelsData (cs : List Char) : Option (List (String × String)) :=
  loadLevelsLoop (cs.length + 1) cs []

/-- Menu navigation of `idGameManager::SelectLevelUpdate` (GameManager.cpp
lines 190-200): next advances the selection by one modulo the level count,
previous retreats by one modulo the level count; a navigation keypress
with an empty level list reaches a modulo-by-zero (undefined behaviour in
the source), modelled as `none`. -/
def selectLevelNav (levelCount selectedLevelIndex : ℕ)
    (nextPressed prevPressed : Bool) : Option ℕ :=
  if (nextPressed = true ∨ prevPressed = true) ∧ levelCount = 0 then none
  else
    let i1 := if nextPressed then (selectedLevelIndex + 1) % levelCount
      else selectedLevelIndex
    let i2 := if prevPressed then (i1 + levelCount - 1) % levelCount else i1
    some i2

/-- C10: level-select navigation is well-defined only for a non-empty
level list.  `LoadLevelsData` accepts the well-formed empty file as a
successful load with an empty level list; for a non-empty list every
next/previous keypress keeps the selected index inside the list, wrapping
cyclically at both ends; for the empty list any navigation keypress
reaches the modulo-by-zero. -/
theorem menu_navigation_safety (levelCount selectedLevelIndex : ℕ)
    (nextPressed prevPressed : Bool) :
    (loadLevelsData [] = some []) ∧
    (0 < levelCount → (nextPressed = true ∨ prevPressed = true) →
      ∃ j, selectLevelNav levelCount selectedLevelIndex nextPressed prevPressed =
          some j ∧ j < levelCount) ∧
    (0 < levelCount →
      selectLevelNav levelCount (levelCount - 1) true false = some 0 ∧
      selectLevelNav levelCount 0 false true = some (levelCount - 1)) ∧
    (levelCount = 0 → (nextPressed = true ∨ prevPressed = true) →
      selectLevelNav levelCount selectedLevelIndex nextPressed prevPressed = none) := by
  refine ⟨rfl, ?_, ?_, ?_⟩
  · intro hpos hkey
    have hne : ¬ ((nextPressed = true ∨ prevPressed = true) ∧ levelCount = 0) := by
      intro hc; omega
    simp only [selectLevelNav, if_neg hne]
    refine ⟨_, rfl, ?_⟩
    cases hp : prevPressed
    · cases hn : nextPressed
      · rw [hp, hn] at hkey
        simp at hkey
      · simp only [hn, hp, if_true, if_false]
        exact Nat.mod_lt _ hpos
    · simp only [hp, if_true]
      exact Nat.mod_lt _ hpos
  · intro hpos
    have h0 : levelCount ≠ 0 := by omega
    constructor
    · simp only [selectLevelNav]
      rw [if_neg (by simp [h0])]
      simp [Nat.sub_add_cancel hpos, Nat.mod_self]
    · simp only [selectLevelNav]
      rw [if_neg (by simp [h0])]
      simp [Nat.mod_eq_of_lt (Nat.sub_lt hpos Nat.one_pos)]
  · intro h0 hkey
    simp [selectLevelNav, h0, hkey]

/-- Witness for C10 at a concrete input: with two levels, a next keypress
from index 0 stays in range. -/
theorem menu_navigation_safety_witness :
    0 < 2 ∧ ((true : Bool) = true ∨ (false : Bool) = true) ∧
    ∃ j, selectLevelNav 2 0 true false = some j ∧ j < 2 :=
  ⟨by norm_num, Or.inl rfl,
    (menu_navigation_safety 2 0 true false).2.1 (by norm_num) (Or.inl rfl)⟩

/-- Ghost scoring events: one is emitted for each `RegisterHit` and each
`RegisterMissOnLane` call, tagged with the ghost id of the note it scores,
so that once-only scoring can be stated. -/
inductive event_t
  | hit (id : ℕ) (value : ℚ)
  | miss (id : ℕ)
  deriving DecidableEq

/-- Ghost id of the note an event scores. -/
def evId : event_t → ℕ
  | event_t.hit i _ => i
  | event_t.miss i => i

/-- One lane of the current level: the not-yet-activated queue and the
active queue. -/
structure Lane where
  pending : List idMusicNote
  active : List idMusicNote
  deriving DecidableEq

/-- Modelled from the spec: `ActivateNotesForTime(t)` of the absent
`idLevel` class (section 4.2) moves the prefix of the pending queue whose
scroll-in threshold `startSeconds - leadTime` has been reached into the
active queue. -/
def activateLane (P : Params) (t : ℚ) (l : Lane) : Lane :=
  ⟨l.pending.dropWhile (fun n => decide (n.startSeconds - P.leadTime ≤ t)),
    l.active ++ l.pending.takeWhile (fun n => decide (n.startSeconds - P.leadTime ≤ t))⟩

/-- Modelled from the spec: the eviction test of `RemoveNotesForTime(t, tol)`
of the absent `idLevel` class (section 4.2): a note is evicted while it is
already judged (PRESSED or MISSED) and past its resolvable window. -/
def evictCheck (tol t : ℚ) (n : idMusicNote) : Bool :=
  decide (n.state ≠ state_t.ACTIVE) && decide (n.endSeconds - tol < t)

/-- Modelled from the spec: per-lane front eviction of
`RemoveNotesForTime` — the leading contiguous judged-and-expired run moves
into the played batch. -/
def removeNotesLane (tol t : ℚ) (l : Lane) : Lane × List idMusicNote :=
  (⟨l.pending, l.active.dropWhile (evictCheck tol t)⟩,
    l.active.takeWhile (evictCheck tol t))

/-- Eviction over all lanes, concatenating the evicted notes into the
shared played batch in lane order. -/
def removeNotes (tol t : ℚ) : List Lane → List Lane × List idMusicNote
  | [] => ([], [])
  | l :: ls =>
    let r := removeNotesLane tol t l
    let rr := removeNotes tol t ls
    (r.1 :: rr.1, r.2 ++ rr.2)

/-- One lane's judgment pass of `UpdateGameData` (GameManager.cpp lines
305-347): skip an empty queue, select the bottom note, judge it, and when
the judgment registered a miss run `RegisterMissOnLane` and fold its
big-combo-loss return into the accumulator.  The emitted ghost event
records the scored note. -/
def judgeLane (P : Params) (t : ℚ) (inp : Inp) (lane : ℕ)
    (notes : List idMusicNote) (c : ScoreCtx) :
    List idMusicNote × ScoreCtx × List event_t :=
  if notes.isEmpty then (notes, c, [])
  else
    match notes.get? (bottomNoteIdx P t notes) with
    | none => (notes, c, [])
    | some n =>
      let r := judgeNote P t inp n
      if r.2 then
        let rc := registerMissOnLane P t lane c
        (notes.set (bottomNoteIdx P t notes) r.1,
          { rc.1 with isBigComboLoss := rc.1.isBigComboLoss || rc.2 },
          [event_t.miss n.noteId])
      else (notes.set (bottomNoteIdx P t notes) r.1, c, [])

/-- Judgment pass over all lanes in index order, each lane reading its own
key's edge state. -/
def judgeLanes (P : Params) (t : ℚ) (inputs : List Inp) :
    ℕ → List Lane → ScoreCtx → List Lane × ScoreCtx × List event_t
  | _, [], c => ([], c, [])
  | k, l :: ls, c =>
    let r1 := judgeLane P t (inputs.getD k ⟨false, false⟩) k l.active c
    let r2 := judgeLanes P t inputs (k + 1) ls r1.2.1
    (⟨l.pending, r1.1⟩ :: r2.1, r2.2.1, r1.2.2 ++ r2.2.2)

/-- The score-management loop of `UpdateGameData` (GameManager.cpp lines
351-361): each played note in state PRESSED registers a hit worth
`(endSeconds - startSeconds) * 10`; a played note neither PRESSED nor
MISSED registers a miss through `RegisterMissOnLane` with the batch index
passed as the lane (the wiring the source uses); MISSED notes are skipped
because their miss was already registered at the state transition. -/
def consumePlayed (P : Params) (t : ℚ) :
    List idMusicNote → ℕ → ScoreCtx → ScoreCtx × List event_t
  | [], _, c => (c, [])
  | n :: rest, i, c =>
    if n.state = state_t.PRESSED then
      let c1 := { c with sc := registerHit ((n.endSeconds - n.startSeconds) * 10) c.sc }
      let r := consumePlayed P t rest (i + 1) c1
      (r.1, event_t.hit n.noteId ((n.endSeconds - n.startSeconds) * 10) :: r.2)
    else if n.state ≠ state_t.MISSED then
      let rc := registerMissOnLane P t i c
      let c1 := { rc.1 with isBigComboLoss := rc.1.isBigComboLoss || rc.2 }
      let r := consumePlayed P t rest (i + 1) c1
      (r.1, event_t.miss n.noteId :: r.2)
    else
      consumePlayed P t rest (i + 1) c

/-- The whole mutable state touched by one `UpdateGameData` frame.  The
`graveyard` field is ghost state collecting the notes consumed from the
played batch, so that their final scoring can be stated. -/
structure GameState where
  lanes : List Lane
  played : List idMusicNote
  sc : ScoreState
  latestLaneMistakes : List ℚ
  graveyard : List idMusicNote
  deriving DecidableEq

/-- One frame of `idGameManager::UpdateGameData` (GameManager.cpp lines
295-369): activate, judge every lane, evict resolved-and-expired notes
into the played batch, score the batch, clear it.  Returns the new state,
the `isBigComboLoss` flag, and the ghost scoring events of the frame. -/
def updateGameData (P : Params) (t : ℚ) (inputs : List Inp) (st : GameState) :
    GameState × Bool × List event_t :=
  let lanes1 := st.lanes.map (activateLane P t)
  let r1 := judgeLanes P t inputs 0 lanes1 ⟨st.sc, st.latestLaneMistakes, false⟩
  let r2 := removeNotes P.pressLateTolerance t r1.1
  let played1 := st.played ++ r2.2
  let r3 := consumePlayed P t played1 0 r1.2.1
  (⟨r2.1, [], r3.1.sc, r3.1.latestLaneMistakes, st.graveyard ++ played1⟩,
    r3.1.isBigComboLoss, r1.2.2 ++ r3.2)

/-- A play session: successive frames, each with its elapsed time and
per-lane input edges, concatenating the ghost scoring events. -/
def runSession (P : Params) : List (ℚ × List Inp) → GameState →
    GameState × List event_t
  | [], st => (st, [])
  | f :: fs, st =>
    let r := updateGameData P f.1 f.2 st
    let rr := runSession P fs r.1
    (rr.1, r.2.2 ++ rr.2)

/-- C6: consuming the played batch adds exactly
`(endSeconds - startSeconds) * 10` to the score for every PRESSED note of
the batch (misses never change the score value); in particular the
Scenario A note with start 1 and end 3/2 adds 5 to a freshly reset score
and brings the combo count to 1. -/
theorem hit_score_value (P : Params) (t : ℚ) :
    (∀ (batch : List idMusicNote) (i : ℕ) (c : ScoreCtx),
      (consumePlayed P t batch i c).1.sc.score =
        c.sc.score +
          ((batch.filter (fun n => n.state = state_t.PRESSED)).map
            (fun n => (n.endSeconds - n.startSeconds) * 10)).sum) ∧
    (∀ ms : List ℚ,
      (consumePlayed P t [⟨1, 3/2, state_t.PRESSED, 0⟩] 0 ⟨scoreReset, ms, false⟩).1.sc.score = 5 ∧
      (consumePlayed P t [⟨1, 3/2, state_t.PRESSED, 0⟩] 0 ⟨scoreReset, ms, false⟩).1.sc.comboCount = 1) := by
  have hgen : ∀ (batch : List idMusicNote) (i : ℕ) (c : ScoreCtx),
      (consumePlayed P t batch i c).1.sc.score =
        c.sc.score +
          ((batch.filter (fun n => n.state = state_t.PRESSED)).map
            (fun n => (n.endSeconds - n.startSeconds) * 10)).sum := by
    intro batch
    induction batch with
    | nil => intro i c; simp [consumePlayed]
    | cons n rest ih =>
      intro i c
      by_cases h1 : n.state = state_t.PRESSED
      · simp only [consumePlayed, if_pos h1, ih, registerHit]
        simp [h1]
        ring
      · by_cases h2 : n.state = state_t.MISSED
        · have h2n : ¬ n.state ≠ state_t.MISSED := by simp [h2]
          simp only [consumePlayed, if_neg h1, if_neg h2n, ih]
          simp [h1]
        · simp only [consumePlayed, if_neg h1, if_pos h2, ih, registerMissOnLane,
            registerMiss]
          simp [h1]
  refine ⟨hgen, ?_⟩
  intro ms
  constructor
  · rw [hgen]
    simp [scoreReset]
    norm_num
  · simp [consumePlayed, registerHit, scoreReset]

/-- Scoring events of the trace that score the note with ghost id `i`. -/
def regs (i : ℕ) (tr : List event_t) : List event_t :=
  tr.filter (fun e => decide (evId e = i))

/-- Invariant of a note sitting in a pending queue: still ACTIVE and never
scored. -/
def PendingOk (tr : List event_t) (n : idMusicNote) : Prop :=
  n.state = state_t.ACTIVE ∧ regs n.noteId tr = []

/-- Invariant of a note sitting in an active queue: scored exactly by its
one synchronous miss when MISSED, otherwise not yet scored. -/
def ActiveOk (tr : List event_t) (n : idMusicNote) : Prop :=
  (n.state = state_t.MISSED → regs n.noteId tr = [event_t.miss n.noteId]) ∧
  (n.state ≠ state_t.MISSED → regs n.noteId tr = [])

/-- Invariant of a note sitting in the played batch: judged, and scored
exactly as in the active queue. -/
def PlayedOk (tr : List event_t) (n : idMusicNote) : Prop :=
  n.state ≠ state_t.ACTIVE ∧ ActiveOk tr n

/-- Invariant of a consumed note: judged, with exactly one scoring event —
its synchronous miss when MISSED, its batch hit when PRESSED. -/
def DeadOk (tr : List event_t) (n : idMusicNote) : Prop :=
  n.state ≠ state_t.ACTIVE ∧
  (n.state = state_t.MISSED → regs n.noteId tr = [event_t.miss n.noteId]) ∧
  (n.state = state_t.PRESSED → regs n.noteId tr =
    [event_t.hit n.noteId ((n.endSeconds - n.startSeconds) * 10)])

/-- Ghost ids of a lane's notes. -/
def laneIds (l : Lane) : List ℕ :=
  (l.pending ++ l.active).map idMusicNote.noteId

/-- Ghost ids over a list of lanes. -/
def lanesIds : List Lane → List ℕ
  | [] => []
  | l :: ls => laneIds l ++ lanesIds ls

/-- Ghost ids of the active queues over a list of lanes. -/
def activeIds : List Lane → List ℕ
  | [] => []
  | l :: ls => l.active.map idMusicNote.noteId ++ activeIds ls

/-- Every ghost id alive in the game state. -/
def allIds (st : GameState) : List ℕ :=
  lanesIds st.lanes ++
    (st.played.map idMusicNote.noteId ++ st.graveyard.map idMusicNote.noteId)

/-- The once-only-scoring invariant carried across frames: ids are
pairwise distinct, every event of the trace scores a live id, and every
container imposes its scoring discipline on its notes. -/
structure Inv (st : GameState) (tr : List event_t) : Prop where
  nodup : (allIds st).Nodup
  covered : ∀ e ∈ tr, evId e ∈ allIds st
  hpend : ∀ l ∈ st.lanes, ∀ n ∈ l.pending, PendingOk tr n
  hact : ∀ l ∈ st.lanes, ∀ n ∈ l.active, ActiveOk tr n
  hplay : ∀ n ∈ st.played, PlayedOk tr n
  hdead : ∀ n ∈ st.graveyard, DeadOk tr n

/-- A well-formed freshly loaded session: distinct ghost ids, all notes
pending and ACTIVE, empty played batch and graveyard. -/
def WFInit (st : GameState) : Prop :=
  (allIds st).Nodup ∧ (∀ l ∈ st.lanes, l.active = []) ∧
  (∀ l ∈ st.lanes, ∀ n ∈ l.pending, n.state = state_t.ACTIVE) ∧
  st.played = [] ∧ st.graveyard = []

theorem regs_append (i : ℕ) (tr us : List event_t) :
    regs i (tr ++ us) = regs i tr ++ regs i us := by
  simp [regs, List.filter_append]

theorem regs_eq_nil (i : ℕ) (us : List event_t) (h : ∀ e ∈ us, evId e ≠ i) :
    regs i us = [] := by
  refine List.filter_eq_nil.mpr ?_
  intro e he
  simp [h e he]

theorem regs_of_disjoint (i : ℕ) (tr us : List event_t)
    (h : ∀ e ∈ us, evId e ≠ i) : regs i (tr ++ us) = regs i tr := by
  rw [regs_append, regs_eq_nil i us h, List.append_nil]

theorem pendingOk_append (tr us : List event_t) (n : idMusicNote)
    (hd : ∀ e ∈ us, evId e ≠ n.noteId) (h : PendingOk tr n) :
    PendingOk (tr ++ us) n := by
  unfold PendingOk at *
  rw [regs_of_disjoint _ _ _ hd]
  exact h

theorem activeOk_append (tr us : List event_t) (n : idMusicNote)
    (hd : ∀ e ∈ us, evId e ≠ n.noteId) (h : ActiveOk tr n) :
    ActiveOk (tr ++ us) n := by
  unfold ActiveOk at *
  rw [regs_of_disjoint _ _ _ hd]
  exact h

theorem playedOk_append (tr us : List event_t) (n : idMusicNote)
    (hd : ∀ e ∈ us, evId e ≠ n.noteId) (h : PlayedOk tr n) :
    PlayedOk (tr ++ us) n :=
  ⟨h.1, activeOk_append tr us n hd h.2⟩

theorem deadOk_append (tr us : List event_t) (n : idMusicNote)
    (hd : ∀ e ∈ us, evId e ≠ n.noteId) (h : DeadOk tr n) :
    DeadOk (tr ++ us) n := by
  unfold DeadOk at *
  rw [regs_of_disjoint _ _ _ hd]
  exact h

theorem activeOk_of_pendingOk (tr : List event_t) (n : idMusicNote)
    (h : PendingOk tr n) : ActiveOk tr n := by
  refine ⟨fun hm => ?_, fun _ => h.2⟩
  rw [h.1] at hm
  cases hm

theorem mem_lanesIds {ls : List Lane} {i : ℕ} :
    i ∈ lanesIds ls ↔ ∃ l ∈ ls, i ∈ laneIds l := by
  induction ls with
  | nil => simp [lanesIds]
  | cons l ls ih => simp [lanesIds, ih]

theorem mem_activeIds {ls : List Lane} {i : ℕ} :
    i ∈ activeIds ls ↔ ∃ l ∈ ls, i ∈ l.active.map idMusicNote.noteId := by
  induction ls with
  | nil => simp [activeIds]
  | cons l ls ih => simp [activeIds, ih]

theorem activeIds_subset_lanesIds {ls : List Lane} {i : ℕ}
    (h : i ∈ activeIds ls) : i ∈ lanesIds ls := by
  rcases mem_activeIds.mp h with ⟨l, hl, hi⟩
  exact mem_lanesIds.mpr ⟨l, hl, by simp [laneIds]; simp at hi; tauto⟩

theorem count_map_evId (i : ℕ) (tr : List event_t) :
    (tr.map evId).count i = (regs i tr).length := by
  induction tr with
  | nil => simp [regs]
  | cons e tr ih =>
    by_cases h : evId e = i
    · simp [regs, List.filter_cons, h, List.count_cons, ih]
    · simp [regs, List.filter_cons, h, List.count_cons, ih]

theorem map_noteId_set (l : List idMusicNote) (i : ℕ) (a n : idMusicNote)
    (hg : l.get? i = some n) (hid : a.noteId = n.noteId) :
    (l.set i a).map idMusicNote.noteId = l.map idMusicNote.noteId := by
  induction l generalizing i with
  | nil => simp at hg
  | cons b bs ih =>
    cases i with
    | zero =>
      simp only [List.get?] at hg
      injection hg with hg
      simp [List.set, hid, hg]
    | succ j =>
      simp only [List.get?] at hg
      simp [List.set, ih j hg]

theorem mem_set_elim (l : List idMusicNote) (i : ℕ) (a n m : idMusicNote)
    (hnd : (l.map idMusicNote.noteId).Nodup)
    (hg : l.get? i = some n) (hm : m ∈ l.set i a) :
    m = a ∨ (m ∈ l ∧ m.noteId ≠ n.noteId) := by
  induction l generalizing i with
  | nil => simp at hm
  | cons b bs ih =>
    simp only [List.map_cons, List.nodup_cons] at hnd
    cases i with
    | zero =>
      simp only [List.get?] at hg
      injection hg with hg
      simp only [List.set] at hm
      rcases List.mem_cons.mp hm with h1 | h1
      · exact Or.inl h1
      · refine Or.inr ⟨List.mem_cons_of_mem b h1, ?_⟩
        intro hcon
        rw [← hg] at hcon
        exact hnd.1 (hcon ▸ List.mem_map_of_mem idMusicNote.noteId h1)
    | succ j =>
      simp only [List.get?] at hg
      simp only [List.set] at hm
      rcases List.mem_cons.mp hm with h1 | h1
      · refine Or.inr ⟨h1 ▸ List.mem_cons_self b bs, ?_⟩
        intro hcon
        have hn : n ∈ bs := List.get?_mem hg
        have hmem : n.noteId ∈ bs.map idMusicNote.noteId :=
          List.mem_map_of_mem idMusicNote.noteId hn
        rw [← hcon] at hmem
        rw [h1] at hmem
        exact hnd.1 hmem
      · rcases ih j hnd.2 hg h1 with h2 | h2
        · exact Or.inl h2
        · exact Or.inr ⟨List.mem_cons_of_mem b h2.1, h2.2⟩

theorem judgeNote_spec (P : Params) (t : ℚ) (inp : Inp) (n : idMusicNote) :
    (judgeNote P t inp n).1.noteId = n.noteId ∧
    (judgeNote P t inp n).1.startSeconds = n.startSeconds ∧
    (judgeNote P t inp n).1.endSeconds = n.endSeconds ∧
    ((judgeNote P t inp n).2 = true →
      n.state ≠ state_t.MISSED ∧ (judgeNote P t inp n).1.state = state_t.MISSED) ∧
    ((judgeNote P t inp n).2 = false →
      (judgeNote P t inp n).1 = n ∨
        (n.state = state_t.ACTIVE ∧ (judgeNote P t inp n).1.state = state_t.PRESSED)) := by
  unfold judgeNote
  split_ifs <;> simp_all

theorem activate_pres (P : Params) (t : ℚ) (tr : List event_t) (ls : List Lane)
    (hp : ∀ l ∈ ls, ∀ n ∈ l.pending, PendingOk tr n)
    (ha : ∀ l ∈ ls, ∀ n ∈ l.active, ActiveOk tr n) :
    (∀ l ∈ ls.map (activateLane P t), ∀ n ∈ l.pending, PendingOk tr n) ∧
    (∀ l ∈ ls.map (activateLane P t), ∀ n ∈ l.active, ActiveOk tr n) := by
  constructor
  · intro l' hl' n hn
    rcases List.mem_map.mp hl' with ⟨l, hl, heq⟩
    rw [← heq] at hn
    exact hp l hl n ((List.dropWhile_sublist _).subset hn)
  · intro l' hl' n hn
    rcases List.mem_map.mp hl' with ⟨l, hl, heq⟩
    rw [← heq] at hn
    rcases List.mem_append.mp hn with h1 | h1
    · exact ha l hl n h1
    · exact activeOk_of_pendingOk tr n (hp l hl n ((List.takeWhile_sublist _).subset h1))

theorem activateLane_idsM (P : Params) (t : ℚ) (l : Lane) :
    ((laneIds (activateLane P t l) : List ℕ) : Multiset ℕ) =
      ((laneIds l : List ℕ) : Multiset ℕ) := by
  unfold activateLane laneIds
  simp only [List.map_append]
  rw [← Multiset.coe_add, ← Multiset.coe_add, ← Multiset.coe_add]
  conv_rhs =>
    rw [show l.pending =
        l.pending.takeWhile (fun n => decide (n.startSeconds - P.leadTime ≤ t)) ++
          l.pending.dropWhile (fun n => decide (n.startSeconds - P.leadTime ≤ t)) from
      (List.takeWhile_append_dropWhile _ _).symm]
  simp only [List.map_append]
  rw [← Multiset.coe_add]
  abel

theorem lanesIds_activate (P : Params) (t : ℚ) (ls : List Lane) :
    ((lanesIds (ls.map (activateLane P t)) : List ℕ) : Multiset ℕ) =
      ((lanesIds ls : List ℕ) : Multiset ℕ) := by
  induction ls with
  | nil => rfl
  | cons l ls ih =>
    simp only [List.map_cons, lanesIds]
    rw [← Multiset.coe_add, ← Multiset.coe_add, activateLane_idsM, ih]

theorem judgeLane_pres (P : Params) (t : ℚ) (inp : Inp) (k : ℕ)
    (notes : List idMusicNote) (c : ScoreCtx) (tr : List event_t)
    (hnd : (notes.map idMusicNote.noteId).Nodup)
    (h : ∀ n ∈ notes, ActiveOk tr n) :
    ((judgeLane P t inp k notes c).1.map idMusicNote.noteId =
      notes.map idMusicNote.noteId) ∧
    (∀ e ∈ (judgeLane P t inp k notes c).2.2,
      evId e ∈ notes.map idMusicNote.noteId) ∧
    (∀ m ∈ (judgeLane P t inp k notes c).1,
      ActiveOk (tr ++ (judgeLane P t inp k notes c).2.2) m) := by
  by_cases hemp : notes.isEmpty
  · have heq1 : (judgeLane P t inp k notes c).1 = notes := by
      simp [judgeLane, hemp]
    have heq2 : (judgeLane P t inp k notes c).2.2 = [] := by
      simp [judgeLane, hemp]
    rw [heq1, heq2]
    refine ⟨rfl, by simp, ?_⟩
    intro m hm
    rw [List.append_nil]
    exact h m hm
  · cases hget : notes.get? (bottomNoteIdx P t notes) with
    | none =>
      have hget2 : notes[bottomNoteIdx P t notes]? = none := by
        rw [← List.get?_eq_getElem?]
        exact hget
      have heq1 : (judgeLane P t inp k notes c).1 = notes := by
        simp [judgeLane, hemp, hget2]
      have heq2 : (judgeLane P t inp k notes c).2.2 = [] := by
        simp [judgeLane, hemp, hget2]
      rw [heq1, heq2]
      refine ⟨rfl, by simp, ?_⟩
      intro m hm
      rw [List.append_nil]
      exact h m hm
    | some n =>
      have hget2 : notes[bottomNoteIdx P t notes]? = some n := by
        rw [← List.get?_eq_getElem?]
        exact hget
      have hspec := judgeNote_spec P t inp n
      have hnmem : n ∈ notes := List.get?_mem hget
      cases hflag : (judgeNote P t inp n).2 with
      | true =>
        have hstates := hspec.2.2.2.1 hflag
        have heq1 : (judgeLane P t inp k notes c).1 =
            notes.set (bottomNoteIdx P t notes) (judgeNote P t inp n).1 := by
          simp [judgeLane, hemp, hget2, hflag]
        have heq2 : (judgeLane P t inp k notes c).2.2 = [event_t.miss n.noteId] := by
          simp [judgeLane, hemp, hget2, hflag]
        rw [heq1, heq2]
        refine ⟨map_noteId_set notes _ _ n hget hspec.1, ?_, ?_⟩
        · intro e he
          rcases List.mem_singleton.mp he with rfl
          simp only [evId]
          exact List.mem_map_of_mem idMusicNote.noteId hnmem
        · intro m hm
          rcases mem_set_elim notes _ _ n m hnd hget hm with heq | ⟨hmem, hne⟩
          · subst heq
            constructor
            · intro _
              rw [hspec.1, regs_append]
              rw [(h n hnmem).2 hstates.1]
              simp [regs, evId]
            · intro hcon
              exact absurd hstates.2 hcon
          · refine activeOk_append tr _ m ?_ (h m hmem)
            intro e he
            rcases List.mem_singleton.mp he with rfl
            simp only [evId]
            exact Ne.symm hne
      | false =>
        have hcases := hspec.2.2.2.2 hflag
        have heq1 : (judgeLane P t inp k notes c).1 =
            notes.set (bottomNoteIdx P t notes) (judgeNote P t inp n).1 := by
          simp [judgeLane, hemp, hget2, hflag]
        have heq2 : (judgeLane P t inp k notes c).2.2 = [] := by
          simp [judgeLane, hemp, hget2, hflag]
        rw [heq1, heq2]
        refine ⟨map_noteId_set notes _ _ n hget hspec.1, by simp, ?_⟩
        intro m hm
        rw [List.append_nil]
        rcases mem_set_elim notes _ _ n m hnd hget hm with heq | ⟨hmem, _⟩
        · subst heq
          rcases hcases with heq3 | ⟨hA, hP⟩
          · rw [heq3]
            exact h n hnmem
          · constructor
            · intro hcon
              rw [hP] at hcon
              exact absurd hcon (by decide)
            · intro _
              rw [hspec.1]
              exact (h n hnmem).2 (by rw [hA]; decide)
        · exact h m hmem

theorem removeNotesLane_fst (tol t : ℚ) (l : Lane) :
    (removeNotesLane tol t l).1 =
      ⟨l.pending, l.active.dropWhile (evictCheck tol t)⟩ := rfl

theorem removeNotesLane_snd (tol t : ℚ) (l : Lane) :
    (removeNotesLane tol t l).2 = l.active.takeWhile (evictCheck tol t) := rfl

theorem removeNotes_fst (tol t : ℚ) (l : Lane) (ls : List Lane) :
    (removeNotes tol t (l :: ls)).1 =
      (removeNotesLane tol t l).1 :: (removeNotes tol t ls).1 := rfl

theorem removeNotes_snd (tol t : ℚ) (l : Lane) (ls : List Lane) :
    (removeNotes tol t (l :: ls)).2 =
      (removeNotesLane tol t l).2 ++ (removeNotes tol t ls).2 := rfl

theorem removeNotesLane_idsM (tol t : ℚ) (l : Lane) :
    ((laneIds (removeNotesLane tol t l).1 : List ℕ) : Multiset ℕ) +
      (((removeNotesLane tol t l).2.map idMusicNote.noteId : List ℕ) : Multiset ℕ) =
      ((laneIds l : List ℕ) : Multiset ℕ) := by
  rw [removeNotesLane_fst, removeNotesLane_snd]
  unfold laneIds
  conv_rhs =>
    rw [show l.active = l.active.takeWhile (evictCheck tol t) ++
        l.active.dropWhile (evictCheck tol t) from
      (List.takeWhile_append_dropWhile _ _).symm]
  simp only [List.map_append]
  simp only [← Multiset.coe_add]
  abel

theorem removeNotes_spec (tol t : ℚ) :
    ∀ (ls : List Lane) (tr : List event_t),
      (∀ l ∈ ls, ∀ n ∈ l.pending, PendingOk tr n) →
      (∀ l ∈ ls, ∀ n ∈ l.active, ActiveOk tr n) →
      (((lanesIds (removeNotes tol t ls).1 ++
          (removeNotes tol t ls).2.map idMusicNote.noteId : List ℕ) : Multiset ℕ) =
        ((lanesIds ls : List ℕ) : Multiset ℕ)) ∧
      (∀ l ∈ (removeNotes tol t ls).1, ∀ n ∈ l.pending, PendingOk tr n) ∧
      (∀ l ∈ (removeNotes tol t ls).1, ∀ n ∈ l.active, ActiveOk tr n) ∧
      (∀ n ∈ (removeNotes tol t ls).2, PlayedOk tr n) := by
  intro ls
  induction ls with
  | nil =>
    intro tr _ _
    exact ⟨rfl, by simp [removeNotes], by simp [removeNotes], by simp [removeNotes]⟩
  | cons l ls ih =>
    intro tr hp ha
    have hpl := hp l (List.mem_cons_self l ls)
    have hal := ha l (List.mem_cons_self l ls)
    have ihspec := ih tr (fun x hx => hp x (List.mem_cons_of_mem l hx))
      (fun x hx => ha x (List.mem_cons_of_mem l hx))
    refine ⟨?_, ?_, ?_, ?_⟩
    · rw [removeNotes_fst, removeNotes_snd]
      simp only [lanesIds, List.map_append]
      simp only [← Multiset.coe_add]
      have ih1 := ihspec.1
      rw [← Multiset.coe_add] at ih1
      rw [← removeNotesLane_idsM tol t l, ← ih1]
      abel
    · intro x hx n hn
      rw [removeNotes_fst] at hx
      rcases List.mem_cons.mp hx with heq | hx2
      · subst heq
        rw [removeNotesLane_fst] at hn
        exact hpl n hn
      · exact ihspec.2.1 x hx2 n hn
    · intro x hx n hn
      rw [removeNotes_fst] at hx
      rcases List.mem_cons.mp hx with heq | hx2
      · subst heq
        rw [removeNotesLane_fst] at hn
        exact hal n ((List.dropWhile_sublist _).subset hn)
      · exact ihspec.2.2.1 x hx2 n hn
    · intro n hn
      rw [removeNotes_snd] at hn
      rcases List.mem_append.mp hn with hn2 | hn2
      · rw [removeNotesLane_snd] at hn2
        have hcheck := List.mem_takeWhile_imp hn2
        simp only [evictCheck, Bool.and_eq_true, decide_eq_true_eq] at hcheck
        exact ⟨hcheck.1, hal n ((List.takeWhile_sublist _).subset hn2)⟩
      · exact ihspec.2.2.2 n hn2

theorem consume_pres (P : Params) (t : ℚ) :
    ∀ (batch : List idMusicNote) (i : ℕ) (c : ScoreCtx) (tr : List event_t),
      (batch.map idMusicNote.noteId).Nodup →
      (∀ n ∈ batch, PlayedOk tr n) →
      (∀ e ∈ (consumePlayed P t batch i c).2,
        evId e ∈ batch.map idMusicNote.noteId) ∧
      (∀ n ∈ batch, DeadOk (tr ++ (consumePlayed P t batch i c).2) n) := by
  intro batch
  induction batch with
  | nil =>
    intro i c tr _ _
    exact ⟨by simp [consumePlayed], by simp⟩
  | cons n rest ih =>
    intro i c tr hnd hp
    simp only [List.map_cons, List.nodup_cons] at hnd
    have hpn := hp n (List.mem_cons_self n rest)
    have hprest : ∀ m ∈ rest, m.noteId ≠ n.noteId := by
      intro m hm hcon
      exact hnd.1 (hcon ▸ List.mem_map_of_mem idMusicNote.noteId hm)
    by_cases h1 : n.state = state_t.PRESSED
    · have heq : (consumePlayed P t (n :: rest) i c).2 =
          event_t.hit n.noteId ((n.endSeconds - n.startSeconds) * 10) ::
            (consumePlayed P t rest (i + 1)
              { c with sc := registerHit ((n.endSeconds - n.startSeconds) * 10) c.sc }).2 := by
        simp [consumePlayed, h1]
      have hdisj : ∀ e ∈ [event_t.hit n.noteId ((n.endSeconds - n.startSeconds) * 10)],
          ∀ m ∈ rest, evId e ≠ m.noteId := by
        intro e he m hm
        rcases List.mem_singleton.mp he with rfl
        simp only [evId]
        exact Ne.symm (hprest m hm)
      have hp2 : ∀ m ∈ rest,
          PlayedOk (tr ++ [event_t.hit n.noteId ((n.endSeconds - n.startSeconds) * 10)]) m := by
        intro m hm
        exact playedOk_append tr _ m (fun e he => hdisj e he m hm)
          (hp m (List.mem_cons_of_mem n hm))
      have ihspec := ih (i + 1)
        { c with sc := registerHit ((n.endSeconds - n.startSeconds) * 10) c.sc }
        (tr ++ [event_t.hit n.noteId ((n.endSeconds - n.startSeconds) * 10)]) hnd.2 hp2
      rw [heq]
      constructor
      · intro e he
        rcases List.mem_cons.mp he with rfl | he2
        · simp only [evId, List.map_cons]
          exact List.mem_cons_self _ _
        · exact List.mem_cons_of_mem _ (ihspec.1 e he2)
      · intro m hm
        rw [show tr ++ event_t.hit n.noteId ((n.endSeconds - n.startSeconds) * 10) ::
              (consumePlayed P t rest (i + 1)
                { c with sc := registerHit ((n.endSeconds - n.startSeconds) * 10) c.sc }).2 =
            (tr ++ [event_t.hit n.noteId ((n.endSeconds - n.startSeconds) * 10)]) ++
              (consumePlayed P t rest (i + 1)
                { c with sc := registerHit ((n.endSeconds - n.startSeconds) * 10) c.sc }).2 by
          simp]
        rcases List.mem_cons.mp hm with heqm | hm2
        · subst m
          refine ⟨hpn.1, ?_, ?_⟩
          · intro hcon
            rw [h1] at hcon
            exact absurd hcon (by decide)
          · intro _
            have hne2 : ∀ e ∈ (consumePlayed P t rest (i + 1)
                { c with sc := registerHit ((n.endSeconds - n.startSeconds) * 10) c.sc }).2,
                evId e ≠ n.noteId := by
              intro e he hc
              exact hnd.1 (hc ▸ ihspec.1 e he)
            rw [regs_append, regs_append]
            rw [hpn.2.2 (by rw [h1]; decide)]
            rw [regs_eq_nil n.noteId _ hne2]
            simp [regs, evId]
        · exact ihspec.2 m hm2
    · by_cases h2 : n.state = state_t.MISSED
      · have heq : (consumePlayed P t (n :: rest) i c).2 =
            (consumePlayed P t rest (i + 1) c).2 := by
          have h2n : ¬ n.state ≠ state_t.MISSED := by simp [h2]
          simp [consumePlayed, h1, h2n]
        have ihspec := ih (i + 1) c tr hnd.2 (fun m hm => hp m (List.mem_cons_of_mem n hm))
        rw [heq]
        constructor
        · intro e he
          exact List.mem_cons_of_mem _ (ihspec.1 e he)
        · intro m hm
          rcases List.mem_cons.mp hm with heqm | hm2
          · subst m
            refine ⟨hpn.1, ?_, ?_⟩
            · intro _
              have hne2 : ∀ e ∈ (consumePlayed P t rest (i + 1) c).2,
                  evId e ≠ n.noteId := by
                intro e he hc
                exact hnd.1 (hc ▸ ihspec.1 e he)
              rw [regs_of_disjoint n.noteId tr _ hne2]
              exact hpn.2.1 h2
            · intro hcon
              rw [h2] at hcon
              exact absurd hcon (by decide)
          · exact ihspec.2 m hm2
      · exfalso
        have := hpn.1
        cases hs : n.state
        · exact this hs
        · exact h1 hs
        · exact h2 hs

theorem noteId_mem_laneIds_pending {x : Lane} {n : idMusicNote}
    (h : n ∈ x.pending) : n.noteId ∈ laneIds x :=
  List.mem_map_of_mem idMusicNote.noteId (List.mem_append_left _ h)

theorem noteId_mem_laneIds_active {x : Lane} {n : idMusicNote}
    (h : n ∈ x.active) : n.noteId ∈ laneIds x :=
  List.mem_map_of_mem idMusicNote.noteId (List.mem_append_right _ h)

theorem laneIds_mem_lanesIds {ls : List Lane} {x : Lane} (hx : x ∈ ls)
    {i : ℕ} (hi : i ∈ laneIds x) : i ∈ lanesIds ls :=
  mem_lanesIds.mpr ⟨x, hx, hi⟩

theorem judgeLanes_fst (P : Params) (t : ℚ) (inputs : List Inp) (k : ℕ)
    (l : Lane) (ls : List Lane) (c : ScoreCtx) :
    (judgeLanes P t inputs k (l :: ls) c).1 =
      (⟨l.pending,
            (judgeLane P t (inputs.getD k ⟨false, false⟩) k l.active c).1⟩ : Lane) ::
        (judgeLanes P t inputs (k + 1) ls
          (judgeLane P t (inputs.getD k ⟨false, false⟩) k l.active c).2.1).1 := rfl

theorem judgeLanes_evs (P : Params) (t : ℚ) (inputs : List Inp) (k : ℕ)
    (l : Lane) (ls : List Lane) (c : ScoreCtx) :
    (judgeLanes P t inputs k (l :: ls) c).2.2 =
      (judgeLane P t (inputs.getD k ⟨false, false⟩) k l.active c).2.2 ++
        (judgeLanes P t inputs (k + 1) ls
          (judgeLane P t (inputs.getD k ⟨false, false⟩) k l.active c).2.1).2.2 := rfl

theorem judgeLanes_pres (P : Params) (t : ℚ) (inputs : List Inp) :
    ∀ (ls : List Lane) (k : ℕ) (c : ScoreCtx) (tr : List event_t),
      (lanesIds ls).Nodup →
      (∀ l ∈ ls, ∀ n ∈ l.pending, PendingOk tr n) →
      (∀ l ∈ ls, ∀ n ∈ l.active, ActiveOk tr n) →
      (lanesIds (judgeLanes P t inputs k ls c).1 = lanesIds ls) ∧
      (∀ e ∈ (judgeLanes P t inputs k ls c).2.2, evId e ∈ activeIds ls) ∧
      (∀ l ∈ (judgeLanes P t inputs k ls c).1, ∀ n ∈ l.pending,
        PendingOk (tr ++ (judgeLanes P t inputs k ls c).2.2) n) ∧
      (∀ l ∈ (judgeLanes P t inputs k ls c).1, ∀ n ∈ l.active,
        ActiveOk (tr ++ (judgeLanes P t inputs k ls c).2.2) n) := by
  intro ls
  induction ls with
  | nil =>
    intro k c tr _ _ _
    exact ⟨rfl, by simp [judgeLanes], by simp [judgeLanes], by simp [judgeLanes]⟩
  | cons l ls ih =>
    intro k c tr hnd hp ha
    have hndl : (laneIds l).Nodup := by
      have : lanesIds (l :: ls) = laneIds l ++ lanesIds ls := rfl
      rw [this, List.nodup_append] at hnd
      exact hnd.1
    have hndr : (lanesIds ls).Nodup := by
      have : lanesIds (l :: ls) = laneIds l ++ lanesIds ls := rfl
      rw [this, List.nodup_append] at hnd
      exact hnd.2.1
    have hdisj : List.Disjoint (laneIds l) (lanesIds ls) := by
      have : lanesIds (l :: ls) = laneIds l ++ lanesIds ls := rfl
      rw [this, List.nodup_append] at hnd
      exact hnd.2.2
    have hlsplit : laneIds l =
        l.pending.map idMusicNote.noteId ++ l.active.map idMusicNote.noteId := by
      simp [laneIds]
    have hactnd : (l.active.map idMusicNote.noteId).Nodup := by
      rw [hlsplit, List.nodup_append] at hndl
      exact hndl.2.1
    have hdisjPA : List.Disjoint (l.pending.map idMusicNote.noteId)
        (l.active.map idMusicNote.noteId) := by
      rw [hlsplit, List.nodup_append] at hndl
      exact hndl.2.2
    have hjl := judgeLane_pres P t (inputs.getD k ⟨false, false⟩) k l.active c tr
      hactnd (ha l (List.mem_cons_self l ls))
    have hevs1act : ∀ e ∈ (judgeLane P t (inputs.getD k ⟨false, false⟩) k l.active c).2.2,
        evId e ∈ l.active.map idMusicNote.noteId := hjl.2.1
    have hp2 : ∀ x ∈ ls, ∀ n ∈ x.pending,
        PendingOk (tr ++ (judgeLane P t (inputs.getD k ⟨false, false⟩) k l.active c).2.2) n := by
      intro x hx n hn
      refine pendingOk_append tr _ n ?_ (hp x (List.mem_cons_of_mem l hx) n hn)
      intro e he hc
      have h1 : evId e ∈ laneIds l := by
        rw [hlsplit]
        exact List.mem_append_right _ (hevs1act e he)
      have h2 : n.noteId ∈ lanesIds ls :=
        laneIds_mem_lanesIds hx (noteId_mem_laneIds_pending hn)
      exact hdisj h1 (by rw [hc]; exact h2)
    have ha2 : ∀ x ∈ ls, ∀ n ∈ x.active,
        ActiveOk (tr ++ (judgeLane P t (inputs.getD k ⟨false, false⟩) k l.active c).2.2) n := by
      intro x hx n hn
      refine activeOk_append tr _ n ?_ (ha x (List.mem_cons_of_mem l hx) n hn)
      intro e he hc
      have h1 : evId e ∈ laneIds l := by
        rw [hlsplit]
        exact List.mem_append_right _ (hevs1act e he)
      have h2 : n.noteId ∈ lanesIds ls :=
        laneIds_mem_lanesIds hx (noteId_mem_laneIds_active hn)
      exact hdisj h1 (by rw [hc]; exact h2)
    have ihspec := ih (k + 1)
      (judgeLane P t (inputs.getD k ⟨false, false⟩) k l.active c).2.1
      (tr ++ (judgeLane P t (inputs.getD k ⟨false, false⟩) k l.active c).2.2)
      hndr hp2 ha2
    rw [judgeLanes_fst, judgeLanes_evs]
    refine ⟨?_, ?_, ?_, ?_⟩
    · have hl1 : laneIds (⟨l.pending,
          (judgeLane P t (inputs.getD k ⟨false, false⟩) k l.active c).1⟩ : Lane) =
          laneIds l := by
        simp only [laneIds, List.map_append]
        rw [hjl.1, ← List.map_append]
      show laneIds _ ++ lanesIds _ = lanesIds (l :: ls)
      rw [hl1, ihspec.1]
      rfl
    · intro e he
      rcases List.mem_append.mp he with he1 | he2
      · show evId e ∈ l.active.map idMusicNote.noteId ++ activeIds ls
        exact List.mem_append_left _ (hevs1act e he1)
      · show evId e ∈ l.active.map idMusicNote.noteId ++ activeIds ls
        exact List.mem_append_right _ (ihspec.2.1 e he2)
    · intro x hx n hn
      rw [← List.append_assoc]
      rcases List.mem_cons.mp hx with heqx | hx2
      · have hn2 : n ∈ l.pending := by
          rw [heqx] at hn
          exact hn
        have hstep1 : PendingOk
            (tr ++ (judgeLane P t (inputs.getD k ⟨false, false⟩) k l.active c).2.2) n := by
          refine pendingOk_append tr _ n ?_ (hp l (List.mem_cons_self l ls) n hn2)
          intro e he hc
          refine hdisjPA ?_ (hc ▸ hevs1act e he)
          exact List.mem_map_of_mem idMusicNote.noteId hn2
        refine pendingOk_append _ _ n ?_ hstep1
        intro e he hc
        refine hdisj ?_ (hc ▸ activeIds_subset_lanesIds (ihspec.2.1 e he))
        rw [hlsplit]
        exact List.mem_append_left _ (List.mem_map_of_mem idMusicNote.noteId hn2)
      · exact ihspec.2.2.1 x hx2 n hn
    · intro x hx n hn
      rw [← List.append_assoc]
      rcases List.mem_cons.mp hx with heqx | hx2
      · have hn2 : n ∈ (judgeLane P t (inputs.getD k ⟨false, false⟩) k l.active c).1 := by
          rw [heqx] at hn
          exact hn
        refine activeOk_append _ _ n ?_ (hjl.2.2 n hn2)
        intro e he hc
        refine hdisj ?_ (hc ▸ activeIds_subset_lanesIds (ihspec.2.1 e he))
        rw [hlsplit]
        refine List.mem_append_right _ ?_
        rw [← hjl.1]
        exact List.mem_map_of_mem idMusicNote.noteId hn2
      · exact ihspec.2.2.2 x hx2 n hn

theorem updateGameData_pres (P : Params) (t : ℚ) (inputs : List Inp)
    (st : GameState) (tr : List event_t) (hInv : Inv st tr) :
    Inv (updateGameData P t inputs st).1
      (tr ++ (updateGameData P t inputs st).2.2) := by
  set lanes1 := st.lanes.map (activateLane P t) with hlanes1
  set r1 := judgeLanes P t inputs 0 lanes1 ⟨st.sc, st.latestLaneMistakes, false⟩ with hr1def
  set r2 := removeNotes P.pressLateTolerance t r1.1 with hr2def
  set played1 := st.played ++ r2.2 with hplayed1
  set r3 := consumePlayed P t played1 0 r1.2.1 with hr3def
  have hfst : (updateGameData P t inputs st).1 =
      ⟨r2.1, [], r3.1.sc, r3.1.latestLaneMistakes, st.graveyard ++ played1⟩ := rfl
  have hevs : (updateGameData P t inputs st).2.2 = r1.2.2 ++ r3.2 := rfl
  rw [hfst, hevs]
  have hnd := hInv.nodup
  unfold allIds at hnd
  rw [List.nodup_append] at hnd
  have hndL : (lanesIds st.lanes).Nodup := hnd.1
  have hndPG := hnd.2.1
  have hdisjL_PG : List.Disjoint (lanesIds st.lanes)
      (st.played.map idMusicNote.noteId ++ st.graveyard.map idMusicNote.noteId) :=
    hnd.2.2
  rw [List.nodup_append] at hndPG
  have hndP : (st.played.map idMusicNote.noteId).Nodup := hndPG.1
  have hdisjPG : List.Disjoint (st.played.map idMusicNote.noteId)
      (st.graveyard.map idMusicNote.noteId) := hndPG.2.2
  have hper1 : ((lanesIds lanes1 : List ℕ) : Multiset ℕ) =
      ((lanesIds st.lanes : List ℕ) : Multiset ℕ) := lanesIds_activate P t st.lanes
  have hmem1 : ∀ i : ℕ, i ∈ lanesIds lanes1 ↔ i ∈ lanesIds st.lanes := by
    intro i
    rw [← Multiset.mem_coe, ← Multiset.mem_coe, hper1]
  have hndL1 : (lanesIds lanes1).Nodup := by
    rw [← Multiset.coe_nodup, hper1, Multiset.coe_nodup]
    exact hndL
  have hAP := activate_pres P t tr st.lanes hInv.hpend hInv.hact
  have hB := judgeLanes_pres P t inputs lanes1 0 ⟨st.sc, st.latestLaneMistakes, false⟩
    tr hndL1 hAP.1 hAP.2
  have hC := removeNotes_spec P.pressLateTolerance t r1.1 (tr ++ r1.2.2)
    hB.2.2.1 hB.2.2.2
  have hC1b : ((lanesIds r2.1 ++ r2.2.map idMusicNote.noteId : List ℕ) : Multiset ℕ) =
      ((lanesIds st.lanes : List ℕ) : Multiset ℕ) := by
    rw [hC.1, hB.1, hper1]
  have hndC : (lanesIds r2.1 ++ r2.2.map idMusicNote.noteId).Nodup := by
    rw [← Multiset.coe_nodup, hC1b, Multiset.coe_nodup]
    exact hndL
  rw [List.nodup_append] at hndC
  have hdisjLanes2Ev : List.Disjoint (lanesIds r2.1)
      (r2.2.map idMusicNote.noteId) := hndC.2.2
  have hndEv : (r2.2.map idMusicNote.noteId).Nodup := hndC.2.1
  have hmemC : ∀ i : ℕ,
      i ∈ lanesIds r2.1 ++ r2.2.map idMusicNote.noteId ↔ i ∈ lanesIds st.lanes := by
    intro i
    rw [← Multiset.mem_coe, ← Multiset.mem_coe, hC1b]
  have hevs1L : ∀ e ∈ r1.2.2, evId e ∈ lanesIds st.lanes := by
    intro e he
    exact (hmem1 _).mp (activeIds_subset_lanesIds (hB.2.1 e he))
  have hplayed1Ok : ∀ n ∈ played1, PlayedOk (tr ++ r1.2.2) n := by
    intro n hn
    rw [hplayed1] at hn
    rcases List.mem_append.mp hn with h1 | h1
    · refine playedOk_append tr _ n ?_ (hInv.hplay n h1)
      intro e he hc
      refine hdisjL_PG (hevs1L e he) ?_
      rw [hc]
      exact List.mem_append_left _ (List.mem_map_of_mem idMusicNote.noteId h1)
    · exact hC.2.2.2 n h1
  have hndPlayed1 : (played1.map idMusicNote.noteId).Nodup := by
    rw [hplayed1, List.map_append, List.nodup_append]
    refine ⟨hndP, hndEv, ?_⟩
    intro i hiP hiE
    have hiL : i ∈ lanesIds st.lanes := (hmemC i).mp (List.mem_append_right _ hiE)
    exact hdisjL_PG hiL (List.mem_append_left _ hiP)
  have hD := consume_pres P t played1 0 r1.2.1 (tr ++ r1.2.2) hndPlayed1 hplayed1Ok
  have hevs3P : ∀ e ∈ r3.2, evId e ∈ played1.map idMusicNote.noteId := hD.1
  have hplayed1_not_lanes2 : ∀ i ∈ played1.map idMusicNote.noteId,
      i ∉ lanesIds r2.1 := by
    intro i hi hiL
    rw [hplayed1, List.map_append] at hi
    rcases List.mem_append.mp hi with h1 | h1
    · have h2 : i ∈ lanesIds st.lanes := (hmemC i).mp (List.mem_append_left _ hiL)
      exact hdisjL_PG h2 (List.mem_append_left _ h1)
    · exact hdisjLanes2Ev hiL h1
  have hplayed1_not_grave : ∀ i ∈ played1.map idMusicNote.noteId,
      i ∉ st.graveyard.map idMusicNote.noteId := by
    intro i hi hiG
    rw [hplayed1, List.map_append] at hi
    rcases List.mem_append.mp hi with h1 | h1
    · exact hdisjPG h1 hiG
    · have h2 : i ∈ lanesIds st.lanes := (hmemC i).mp (List.mem_append_right _ h1)
      exact hdisjL_PG h2 (List.mem_append_right _ hiG)
  have hidsM : ((allIds ⟨r2.1, [], r3.1.sc, r3.1.latestLaneMistakes,
        st.graveyard ++ played1⟩ : List ℕ) : Multiset ℕ) =
      ((allIds st : List ℕ) : Multiset ℕ) := by
    unfold allIds
    simp only [List.map_nil, List.nil_append, List.map_append, hplayed1]
    simp only [← Multiset.coe_add]
    have h1 := hC1b
    rw [← Multiset.coe_add] at h1
    rw [← h1]
    abel
  have hmemAll : ∀ i : ℕ, i ∈ allIds st →
      i ∈ allIds ⟨r2.1, [], r3.1.sc, r3.1.latestLaneMistakes,
        st.graveyard ++ played1⟩ := by
    intro i hi
    rw [← Multiset.mem_coe] at hi ⊢
    rw [hidsM]
    exact hi
  refine ⟨?_, ?_, ?_, ?_, ?_, ?_⟩
  · rw [← Multiset.coe_nodup, hidsM, Multiset.coe_nodup]
    exact hInv.nodup
  · intro e he
    rcases List.mem_append.mp he with h1 | h1
    · exact hmemAll _ (hInv.covered e h1)
    · rcases List.mem_append.mp h1 with h2 | h2
      · refine hmemAll _ ?_
        unfold allIds
        exact List.mem_append_left _ (hevs1L e h2)
      · have h3 : evId e ∈ played1.map idMusicNote.noteId := hevs3P e h2
        show evId e ∈ allIds _
        unfold allIds
        refine List.mem_append_right _ ?_
        simp only [List.map_nil, List.nil_append, List.map_append]
        exact List.mem_append_right _ h3
  · intro l hl n hn
    rw [← List.append_assoc]
    refine pendingOk_append _ _ n ?_ (hC.2.1 l hl n hn)
    intro e he hc
    refine hplayed1_not_lanes2 _ (hevs3P e he) ?_
    rw [hc]
    exact laneIds_mem_lanesIds hl (noteId_mem_laneIds_pending hn)
  · intro l hl n hn
    rw [← List.append_assoc]
    refine activeOk_append _ _ n ?_ (hC.2.2.1 l hl n hn)
    intro e he hc
    refine hplayed1_not_lanes2 _ (hevs3P e he) ?_
    rw [hc]
    exact laneIds_mem_lanesIds hl (noteId_mem_laneIds_active hn)
  · intro n hn
    exact absurd hn (List.not_mem_nil n)
  · intro n hn
    rcases List.mem_append.mp hn with h1 | h1
    · rw [← List.append_assoc]
      refine deadOk_append _ _ n ?_ ?_
      · intro e he hc
        refine hplayed1_not_grave _ (hevs3P e he) ?_
        rw [hc]
        exact List.mem_map_of_mem idMusicNote.noteId h1
      · refine deadOk_append _ _ n ?_ (hInv.hdead n h1)
        intro e he hc
        refine hdisjL_PG (hevs1L e he) ?_
        rw [hc]
        exact List.mem_append_right _ (List.mem_map_of_mem idMusicNote.noteId h1)
    · rw [← List.append_assoc]
      exact hD.2 n h1

theorem runSession_cons (P : Params) (f : ℚ × List Inp)
    (fs : List (ℚ × List Inp)) (st : GameState) :
    runSession P (f :: fs) st =
      ((runSession P fs (updateGameData P f.1 f.2 st).1).1,
        (updateGameData P f.1 f.2 st).2.2 ++
          (runSession P fs (updateGameData P f.1 f.2 st).1).2) := rfl

theorem runSession_pres (P : Params) :
    ∀ (fs : List (ℚ × List Inp)) (st : GameState) (tr : List event_t),
      Inv st tr → Inv (runSession P fs st).1 (tr ++ (runSession P fs st).2) := by
  intro fs
  induction fs with
  | nil =>
    intro st tr h
    have : runSession P [] st = (st, []) := rfl
    rw [this, List.append_nil]
    exact h
  | cons f fs ih =>
    intro st tr h
    rw [runSession_cons]
    have h1 := updateGameData_pres P f.1 f.2 st tr h
    have h2 := ih (updateGameData P f.1 f.2 st).1
      (tr ++ (updateGameData P f.1 f.2 st).2.2) h1
    rw [← List.append_assoc]
    exact h2

theorem inv_regs_le_one (st : GameState) (tr : List event_t) (h : Inv st tr) :
    ∀ i : ℕ, (regs i tr).length ≤ 1 := by
  intro i
  by_cases hi : i ∈ allIds st
  · unfold allIds at hi
    rcases List.mem_append.mp hi with hL | hPG
    · rcases mem_lanesIds.mp hL with ⟨l, hl, hil⟩
      unfold laneIds at hil
      rcases List.mem_map.mp hil with ⟨n, hn, hni⟩
      rcases List.mem_append.mp hn with hp | ha
      · rw [← hni, (h.hpend l hl n hp).2]
        simp
      · have hA := h.hact l hl n ha
        by_cases hs : n.state = state_t.MISSED
        · rw [← hni, hA.1 hs]
          simp
        · rw [← hni, hA.2 hs]
          simp
    · rcases List.mem_append.mp hPG with hP | hG
      · rcases List.mem_map.mp hP with ⟨n, hn, hni⟩
        have hA := (h.hplay n hn).2
        by_cases hs : n.state = state_t.MISSED
        · rw [← hni, hA.1 hs]
          simp
        · rw [← hni, hA.2 hs]
          simp
      · rcases List.mem_map.mp hG with ⟨n, hn, hni⟩
        have hd := h.hdead n hn
        cases hs : n.state
        · exact absurd hs hd.1
        · rw [← hni, hd.2.2 hs]
          simp
        · rw [← hni, hd.2.1 hs]
          simp
  · have hz : regs i tr = [] := by
      refine regs_eq_nil i tr ?_
      intro e he hc
      exact hi (hc ▸ h.covered e he)
    rw [hz]
    simp

theorem trace_nodup_of_inv (st : GameState) (tr : List event_t)
    (h : Inv st tr) : (tr.map evId).Nodup := by
  rw [List.nodup_iff_count_le_one]
  intro i
  rw [count_map_evId]
  exact inv_regs_le_one st tr h i

theorem inv_of_wfInit (st : GameState) (h : WFInit st) : Inv st [] := by
  refine ⟨h.1, by simp, ?_, ?_, ?_, ?_⟩
  · intro l hl n hn
    exact ⟨h.2.2.1 l hl n hn, rfl⟩
  · intro l hl n hn
    rw [h.2.1 l hl] at hn
    exact absurd hn (List.not_mem_nil n)
  · intro n hn
    rw [h.2.2.2.1] at hn
    exact absurd hn (List.not_mem_nil n)
  · intro n hn
    rw [h.2.2.2.2] at hn
    exact absurd hn (List.not_mem_nil n)

/-- C1: starting from a well-formed freshly loaded session, across any
sequence of frames every note is scored at most once in total — the ghost
ids of the scoring-event trace are pairwise distinct, so no note is both
hit-registered and miss-registered and no registration is repeated — and
every note consumed from the played batch is scored exactly once: a note
whose terminal state is MISSED carries exactly its one synchronous miss
registration, emitted at the moment of its state transition and not
repeated when it appears in the played batch, and a note whose terminal
state is PRESSED carries exactly its one hit registration from batch
consumption.  A note still in an active queue is registered exactly once
if MISSED and not yet registered otherwise. -/
theorem notes_scored_exactly_once (P : Params) (st : GameState)
    (fs : List (ℚ × List Inp)) (h : WFInit st) :
    (((runSession P fs st).2.map evId).Nodup) ∧
    (∀ n ∈ (runSession P fs st).1.graveyard,
      (n.state = state_t.MISSED →
        regs n.noteId (runSession P fs st).2 = [event_t.miss n.noteId]) ∧
      (n.state = state_t.PRESSED →
        regs n.noteId (runSession P fs st).2 =
          [event_t.hit n.noteId ((n.endSeconds - n.startSeconds) * 10)])) ∧
    (∀ l ∈ (runSession P fs st).1.lanes, ∀ n ∈ l.active,
      (n.state = state_t.MISSED →
        regs n.noteId (runSession P fs st).2 = [event_t.miss n.noteId]) ∧
      (n.state ≠ state_t.MISSED →
        regs n.noteId (runSession P fs st).2 = [])) := by
  have hInv := runSession_pres P fs st [] (inv_of_wfInit st h)
  rw [List.nil_append] at hInv
  refine ⟨trace_nodup_of_inv _ _ hInv, ?_, ?_⟩
  · intro n hn
    have hd := hInv.hdead n hn
    exact ⟨hd.2.1, hd.2.2⟩
  · intro l hl n hn
    exact hInv.hact l hl n hn

/-- Witness for C1 at a concrete input: a one-lane one-note well-formed
session (empty frame list). -/
theorem notes_scored_exactly_once_witness :
    WFInit ⟨[⟨[⟨1, 2, state_t.ACTIVE, 0⟩], []⟩], [], scoreReset, [0], []⟩ ∧
    ((((runSession ⟨0, 0, 0, 0, 0, 0⟩ []
        ⟨[⟨[⟨1, 2, state_t.ACTIVE, 0⟩], []⟩], [], scoreReset, [0], []⟩).2.map
          evId).Nodup) ∧
      (∀ n ∈ (runSession ⟨0, 0, 0, 0, 0, 0⟩ []
          ⟨[⟨[⟨1, 2, state_t.ACTIVE, 0⟩], []⟩], [], scoreReset, [0], []⟩).1.graveyard,
        (n.state = state_t.MISSED →
          regs n.noteId (runSession ⟨0, 0, 0, 0, 0, 0⟩ []
            ⟨[⟨[⟨1, 2, state_t.ACTIVE, 0⟩], []⟩], [], scoreReset, [0], []⟩).2 =
            [event_t.miss n.noteId]) ∧
        (n.state = state_t.PRESSED →
          regs n.noteId (runSession ⟨0, 0, 0, 0, 0, 0⟩ []
            ⟨[⟨[⟨1, 2, state_t.ACTIVE, 0⟩], []⟩], [], scoreReset, [0], []⟩).2 =
            [event_t.hit n.noteId ((n.endSeconds - n.startSeconds) * 10)])) ∧
      (∀ l ∈ (runSession ⟨0, 0, 0, 0, 0, 0⟩ []
          ⟨[⟨[⟨1, 2, state_t.ACTIVE, 0⟩], []⟩], [], scoreReset, [0], []⟩).1.lanes,
        ∀ n ∈ l.active,
        (n.state = state_t.MISSED →
          regs n.noteId (runSession ⟨0, 0, 0, 0, 0, 0⟩ []
            ⟨[⟨[⟨1, 2, state_t.ACTIVE, 0⟩], []⟩], [], scoreReset, [0], []⟩).2 =
            [event_t.miss n.noteId]) ∧
        (n.state ≠ state_t.MISSED →
          regs n.noteId (runSession ⟨0, 0, 0, 0, 0, 0⟩ []
            ⟨[⟨[⟨1, 2, state_t.ACTIVE, 0⟩], []⟩], [], scoreReset, [0], []⟩).2 = []))) :=
  ⟨by unfold WFInit; exact ⟨by decide, by decide, by decide, rfl, rfl⟩,
    notes_scored_exactly_once ⟨0, 0, 0, 0, 0, 0⟩
      ⟨[⟨[⟨1, 2, state_t.ACTIVE, 0⟩], []⟩], [], scoreReset, [0], []⟩ []
      (by unfold WFInit; exact ⟨by decide, by decide, by decide, rfl, rfl⟩)⟩

end AsciiGame
